import Mathlib

/-!
Shallow embedding of the scheduling core of `os5`:
`src/os5/src/task/manager.rs` (stride scheduler over a ready queue) and
`src/os5/src/task/processor.rs` (dispatch step, current-task mmap/munmap,
syscall counters, run-time query).

Machine integers (`usize`, `u32`) are modelled as `Nat`: the spec declares
`pass` an unbounded unsigned integer and the address/port arithmetic never
relies on a fixed width for the properties below.  A Rust panic (division by
zero in `BIG_STRIDE / priority`) is modelled by an `Option` result.
`BIG_STRIDE` and `MAX_SYSCALL_NUM` live in `config.rs`, which is not part of
the two source files; all results are parametric in them.
-/

namespace OS5

/-- Task status enum (`TaskStatus` in the kernel); only the variants this core
touches matter. -/
inductive TaskStatus where
  | Ready
  | Running
  | Zombie
  deriving DecidableEq, Repr

/-- The mutable inner state of a task control block reachable through
`inner_exclusive_access`, restricted to the fields the two source files read
or write: `pass`, `priority`, `task_status`, `start_time`, `syscall_times`.
The task's address space (`memory_set`) is modelled separately below as the
explicit state of the mmap/munmap operations. -/
structure TCB where
  pass : Nat
  priority : Nat
  task_status : TaskStatus
  start_time : Option Nat
  syscall_times : List Nat
  deriving DecidableEq, Repr

instance : Inhabited TCB :=
  ⟨{ pass := 0, priority := 0, task_status := TaskStatus.Ready,
     start_time := none, syscall_times := [] }⟩

/-- Rust integer division on unsigned operands: panics (here `none`) when the
divisor is zero. -/
def checkedDiv (a b : Nat) : Option Nat :=
  if b = 0 then none else some (a / b)

/-- `TaskManager::add`: `self.ready_queue.push_back(task)`. -/
def add (q : List TCB) (t : TCB) : List TCB :=
  q ++ [t]

/-- One iteration of the selection loop in `TaskManager::fetch`:
`if self.ready_queue[task_pos].pass > task.pass { task_pos = idx }`. -/
def minPassPosStep (q : List TCB) (pos idx : Nat) : Nat :=
  if (q.getD pos default).pass > (q.getD idx default).pass then idx else pos

/-- The `for (idx, task) in self.ready_queue.iter().enumerate().skip(1)` loop
of `TaskManager::fetch`: fold of `minPassPosStep` over indices `1..len`,
starting from `task_pos = 0`. -/
def minPassPos (q : List TCB) : Nat :=
  (List.range' 1 (q.length - 1)).foldl (minPassPosStep q) 0

/-- `TaskManager::fetch`.  `none` models the Rust panic on
`BIG_STRIDE / inner.priority` with zero priority; `some (none, q)` is the
empty-queue early return; otherwise the task at the selected position is
removed, its `pass` incremented by `bigStride / priority`, and returned. -/
def fetch (bigStride : Nat) (q : List TCB) : Option (Option TCB × List TCB) :=
  if q.isEmpty then some (none, q)
  else
    let pos := minPassPos q
    let t := q.getD pos default
    match checkedDiv bigStride t.priority with
    | none => none
    | some inc => some (some { t with pass := t.pass + inc }, q.eraseIdx pos)

/-- The per-task effect of one iteration of `run_tasks` once `fetch_task`
returned this task: set `start_time` on first dispatch, then mark `Running`. -/
def dispatch (now : Nat) (t : TCB) : TCB :=
  let t1 := if t.start_time.isNone then { t with start_time := some now } else t
  { t1 with task_status := TaskStatus.Running }

/-- `Processor::current_run_time`:
`get_time_ms() - start_time.unwrap()`; the `unwrap` of an unset `start_time`
(a panic) is modelled by propagating `none`. -/
def current_run_time (now : Nat) (t : TCB) : Option Nat :=
  t.start_time.map (fun s => now - s)

/-- `Processor::count_syscall`: increment `syscall_times[syscall_id]` when
`syscall_id < MAX_SYSCALL_NUM`, otherwise do nothing.  `bound` stands for the
constant `MAX_SYSCALL_NUM` from the out-of-scope `config.rs`. -/
def count_syscall (bound : Nat) (t : TCB) (id : Nat) : TCB :=
  if id < bound then
    { t with syscall_times :=
        t.syscall_times.set id (t.syscall_times.getD id 0 + 1) }
  else t

/-- Modelled from the spec: the page size used by the page-granular address
space (`PAGE_SIZE` in the out-of-scope `config.rs`). -/
def PAGE_SIZE : Nat := 4096

/-- Modelled from the spec: `VirtAddr::floor`, the page number containing a
virtual address (the `mm` module is an out-of-scope collaborator). -/
def vaFloor (va : Nat) : Nat := va / PAGE_SIZE

/-- Modelled from the spec: `VirtAddr::ceil`, the first page number at or
after a virtual address. -/
def vaCeil (va : Nat) : Nat := (va + PAGE_SIZE - 1) / PAGE_SIZE

/-- Modelled from the spec: a page-table entry as the mmap path sees it:
a validity bit and the permission bits installed with the mapping. -/
structure PTE where
  valid : Bool
  perm : Nat
  deriving DecidableEq, Repr

/-- Modelled from the spec: the per-task address space, exposing page-granular
validity lookup (`translate`), keyed by virtual page number. -/
def MemorySet := Nat → Option PTE

/-- `memory_set.translate(vpn)` followed by `pte.is_valid()`: whether the page
is present and validly mapped. -/
def pageValid (ms : MemorySet) (vpn : Nat) : Bool :=
  match ms vpn with
  | some pte => pte.valid
  | none => false

/-- Scan of `VPNRange::new(s, _)` for `n` consecutive pages, returning whether
`f` holds of any of them (the loops in `task_mmap`/`task_munmap` return `-1`
at the first hit, which is the same Boolean). -/
def anyPage (f : Nat → Bool) (s : Nat) : Nat → Bool
  | 0 => false
  | n + 1 => f s || anyPage f (s + 1) n

/-- The validation loop of `task_mmap`: some page in `[s, e)` is already
validly mapped. -/
def scanMapped (ms : MemorySet) (s e : Nat) : Bool :=
  anyPage (pageValid ms) s (e - s)

/-- The validation loop of `task_munmap`: some page in `[s, e)` is not validly
mapped (either absent from the page table or present but invalid). -/
def scanUnmapped (ms : MemorySet) (s e : Nat) : Bool :=
  anyPage (fun vpn => !pageValid ms vpn) s (e - s)

/-- Modelled from the spec: `MemorySet::insert_framed_area`, installing a
valid mapping with permission `perm` on every page of
`[floor start_va, ceil end_va)`. -/
def insert_framed_area (ms : MemorySet) (start_va end_va perm : Nat) :
    MemorySet :=
  fun vpn =>
    if vaFloor start_va ≤ vpn ∧ vpn < vaCeil end_va then
      some { valid := true, perm := perm }
    else ms vpn

/-- Modelled from the spec: `MemorySet::unmap`, removing the mapping of every
page of `[s, e)`. -/
def msUnmap (ms : MemorySet) (s e : Nat) : MemorySet :=
  fun vpn => if s ≤ vpn ∧ vpn < e then none else ms vpn

/-- The `MapPermission::U` bit (bit 4 of a page-table entry's flags). -/
def U_BIT : Nat := 16

/-- `Processor::task_mmap` acting on the current task's address space.
Checks, in source order: `start` page-aligned, no `port` bit above bit 2
(`(port & !0x7) != 0`), some low bit set (`(port & 0x7) == 0` rejected), no
page of the range already validly mapped; then installs
`MapPermission::from_bits((port as u8) << 1).unwrap() | MapPermission::U`. -/
def task_mmap (ms : MemorySet) (start len port : Nat) : Int × MemorySet :=
  if start % PAGE_SIZE ≠ 0 ∨ port >>> 3 ≠ 0 ∨ port &&& 7 = 0 then (-1, ms)
  else if scanMapped ms (vaFloor start) (vaCeil (start + len)) then (-1, ms)
  else (0, insert_framed_area ms start (start + len) ((port <<< 1) ||| U_BIT))

/-- `Processor::task_munmap` acting on the current task's address space:
checks alignment, then that every page of the range is validly mapped, then
unmaps the whole range. -/
def task_munmap (ms : MemorySet) (start len : Nat) : Int × MemorySet :=
  if start % PAGE_SIZE ≠ 0 then (-1, ms)
  else if scanUnmapped ms (vaFloor start) (vaCeil (start + len)) then (-1, ms)
  else (0, msUnmap ms (vaFloor start) (vaCeil (start + len)))

/-- The empty address space, used by concrete instantiations. -/
def msEmpty : MemorySet := fun _ => none

/-- Concrete task used to instantiate theorems with hypotheses. -/
def tA : TCB :=
  { pass := 0, priority := 1, task_status := TaskStatus.Ready,
    start_time := none, syscall_times := [0, 0] }

/-- A second concrete task, lower weight than `tA`. -/
def tB : TCB :=
  { pass := 0, priority := 2, task_status := TaskStatus.Ready,
    start_time := none, syscall_times := [0, 0] }

/-- `tA` after one dispatch charge with `BIG_STRIDE = 100`. -/
def tA1 : TCB := { tA with pass := 100 }

/-- Invariant of the selection loop of `TaskManager::fetch`: folding
`minPassPosStep` over indices `[k, k+m)` from a position that is the first
minimum of the prefix `[0, k)` yields the first minimum of `[0, k+m)`. -/
theorem minPassFold_inv (q : List TCB) (m : Nat) :
    ∀ k pos, pos < k →
      (∀ j, j < k → (q.getD pos default).pass ≤ (q.getD j default).pass) →
      (∀ j, j < pos → (q.getD pos default).pass < (q.getD j default).pass) →
      ((List.range' k m).foldl (minPassPosStep q) pos < k + m ∧
       (∀ j, j < k + m →
         (q.getD ((List.range' k m).foldl (minPassPosStep q) pos) default).pass ≤
           (q.getD j default).pass) ∧
       (∀ j, j < (List.range' k m).foldl (minPassPosStep q) pos →
         (q.getD ((List.range' k m).foldl (minPassPosStep q) pos) default).pass <
           (q.getD j default).pass)) := by
  induction m with
  | zero =>
    intro k pos h1 h2 h3
    rw [List.range'_zero, List.foldl_nil]
    exact ⟨h1, h2, h3⟩
  | succ m ih =>
    intro k pos h1 h2 h3
    rw [List.range'_succ, List.foldl_cons]
    by_cases hc : (q.getD pos default).pass > (q.getD k default).pass
    · have hstep : minPassPosStep q pos k = k := by
        unfold minPassPosStep
        rw [if_pos hc]
      rw [hstep]
      have h2' : ∀ j, j < k + 1 →
          (q.getD k default).pass ≤ (q.getD j default).pass := by
        intro j hj
        rcases Nat.lt_succ_iff_lt_or_eq.mp hj with hj' | rfl
        · exact le_of_lt (lt_of_lt_of_le hc (h2 j hj'))
        · exact le_refl _
      have h3' : ∀ j, j < k →
          (q.getD k default).pass < (q.getD j default).pass := by
        intro j hj
        exact lt_of_lt_of_le hc (h2 j hj)
      obtain ⟨r1, r2, r3⟩ := ih (k + 1) k (Nat.lt_succ_self k) h2' h3'
      exact ⟨by omega, fun j hj => r2 j (by omega), r3⟩
    · have hstep : minPassPosStep q pos k = pos := by
        unfold minPassPosStep
        rw [if_neg hc]
      rw [hstep]
      have h2' : ∀ j, j < k + 1 →
          (q.getD pos default).pass ≤ (q.getD j default).pass := by
        intro j hj
        rcases Nat.lt_succ_iff_lt_or_eq.mp hj with hj' | rfl
        · exact h2 j hj'
        · exact Nat.le_of_not_lt hc
      obtain ⟨r1, r2, r3⟩ := ih (k + 1) pos (by omega) h2' h3
      exact ⟨by omega, fun j hj => r2 j (by omega), r3⟩

/-- The selection loop returns the position of the first minimum `pass` of a
non-empty queue: in bounds, no smaller `pass` anywhere, and every strictly
earlier position has strictly larger `pass`. -/
theorem minPassPos_spec (q : List TCB) (hne : q ≠ []) :
    minPassPos q < q.length ∧
    (∀ j, j < q.length →
      (q.getD (minPassPos q) default).pass ≤ (q.getD j default).pass) ∧
    (∀ j, j < minPassPos q →
      (q.getD (minPassPos q) default).pass < (q.getD j default).pass) := by
  have hlen : 1 ≤ q.length := List.length_pos.mpr hne
  unfold minPassPos
  obtain ⟨r1, r2, r3⟩ := minPassFold_inv q (q.length - 1) 1 0 (by omega)
    (by
      intro j hj
      have hj0 : j = 0 := by omega
      subst hj0
      exact le_refl _)
    (by intro j hj; omega)
  exact ⟨by omega, fun j hj => r2 j (by omega), r3⟩

/-- The selected task of a non-empty queue is an element of the queue. -/
theorem minPassPos_mem (q : List TCB) (hne : q ≠ []) :
    q.getD (minPassPos q) default ∈ q := by
  have hlt := (minPassPos_spec q hne).1
  rw [List.getD_eq_getElem q default hlt]
  exact List.getElem_mem hlt

/-- Evaluation of `fetch` on a non-empty queue whose selected task has
non-zero priority. -/
theorem fetch_cons_eq (bs : Nat) (q : List TCB) (hne : q ≠ [])
    (hp : (q.getD (minPassPos q) default).priority ≠ 0) :
    fetch bs q = some (some { q.getD (minPassPos q) default with
        pass := (q.getD (minPassPos q) default).pass +
          bs / (q.getD (minPassPos q) default).priority },
      q.eraseIdx (minPassPos q)) := by
  obtain ⟨a, as, rfl⟩ := List.exists_cons_of_ne_nil hne
  simp only [fetch, List.isEmpty_cons, Bool.false_eq_true, if_false, checkedDiv,
    if_neg hp]

/-- Evaluation of `fetch` on a non-empty queue whose selected task has zero
priority: the division panics. -/
theorem fetch_eq_none_of_zero_priority (bs : Nat) (q : List TCB) (hne : q ≠ [])
    (hp : (q.getD (minPassPos q) default).priority = 0) :
    fetch bs q = none := by
  obtain ⟨a, as, rfl⟩ := List.exists_cons_of_ne_nil hne
  simp only [fetch, List.isEmpty_cons, Bool.false_eq_true, if_false, checkedDiv,
    if_pos hp]

/-- C1: For every ready queue (of tasks with the positive priority the spec
requires), `fetch` returns nothing if and only if the queue is empty;
otherwise it removes and returns the task at a position `pos` whose pass is
less than or equal to the pass of every task of the queue (hence of every
task still in the queue), and every strictly earlier position holds a
strictly larger pass, so among tasks tied for the minimum pass the
earliest-inserted one is returned (stable selection by queue position). -/
theorem fetch_min_pass_stable (bs : Nat) (q : List TCB)
    (hwf : ∀ t ∈ q, 1 ≤ t.priority) :
    (fetch bs q = some (none, q) ↔ q = []) ∧
    (q ≠ [] →
      ∃ pos, pos < q.length ∧
        fetch bs q = some (some { q.getD pos default with
            pass := (q.getD pos default).pass +
              bs / (q.getD pos default).priority },
          q.eraseIdx pos) ∧
        (∀ j, j < q.length →
          (q.getD pos default).pass ≤ (q.getD j default).pass) ∧
        (∀ j, j < pos →
          (q.getD pos default).pass < (q.getD j default).pass)) := by
  by_cases hq : q = []
  · subst hq
    exact ⟨⟨fun _ => rfl, fun _ => rfl⟩, fun h => absurd rfl h⟩
  · have hp : (q.getD (minPassPos q) default).priority ≠ 0 := by
      have := hwf _ (minPassPos_mem q hq)
      omega
    have heq := fetch_cons_eq bs q hq hp
    obtain ⟨r1, r2, r3⟩ := minPassPos_spec q hq
    constructor
    · constructor
      · intro habs
        rw [heq] at habs
        simp at habs
      · intro habs
        exact absurd habs hq
    · intro _
      exact ⟨minPassPos q, r1, heq, r2, r3⟩

/-- C1 witness: the two-task queue `[tA, tB]` satisfies the priority
precondition and the conclusion holds of it with `BIG_STRIDE = 100`. -/
theorem fetch_min_pass_stable_witness :
    (∀ t ∈ [tA, tB], 1 ≤ t.priority) ∧
    ((fetch 100 [tA, tB] = some (none, [tA, tB]) ↔ [tA, tB] = ([] : List TCB)) ∧
     ([tA, tB] ≠ ([] : List TCB) →
       ∃ pos, pos < [tA, tB].length ∧
         fetch 100 [tA, tB] = some (some { [tA, tB].getD pos default with
             pass := ([tA, tB].getD pos default).pass +
               100 / ([tA, tB].getD pos default).priority },
           [tA, tB].eraseIdx pos) ∧
         (∀ j, j < [tA, tB].length →
           ([tA, tB].getD pos default).pass ≤ ([tA, tB].getD j default).pass) ∧
         (∀ j, j < pos →
           ([tA, tB].getD pos default).pass < ([tA, tB].getD j default).pass))) :=
  ⟨by decide, fetch_min_pass_stable 100 [tA, tB] (by decide)⟩

/-- C2: whenever `fetch` returns a task, the returned task is the selected
queue entry with its priority unchanged and its pass equal to its pre-call
pass plus `⌊BIG_STRIDE / priority⌋`; and the increment happens nowhere else:
`add` only appends and alters no task, and neither the dispatch step of
`run_tasks` nor `count_syscall` changes any task's pass. -/
theorem fetch_pass_increment (bs : Nat) (q : List TCB) (t' : TCB)
    (q' : List TCB) (h : fetch bs q = some (some t', q')) :
    (∃ pos, pos < q.length ∧
        t'.priority = (q.getD pos default).priority ∧
        t'.pass = (q.getD pos default).pass +
          bs / (q.getD pos default).priority ∧
        q' = q.eraseIdx pos) ∧
    (∀ (r : List TCB) (u : TCB), add r u = r ++ [u]) ∧
    (∀ (now : Nat) (u : TCB), (dispatch now u).pass = u.pass) ∧
    (∀ (b i : Nat) (u : TCB), (count_syscall b u i).pass = u.pass) := by
  refine ⟨?_, fun r u => rfl, fun now u => by simp [dispatch]; split <;> rfl,
    fun b i u => by simp [count_syscall]; split <;> rfl⟩
  by_cases hq : q = []
  · subst hq
    simp [fetch] at h
  · by_cases hp : (q.getD (minPassPos q) default).priority = 0
    · rw [fetch_eq_none_of_zero_priority bs q hq hp] at h
      exact absurd h (by simp)
    · rw [fetch_cons_eq bs q hq hp] at h
      simp only [Option.some.injEq, Prod.mk.injEq] at h
      obtain ⟨ht, hq'⟩ := h
      exact ⟨minPassPos q, (minPassPos_spec q hq).1, by rw [← ht],
        by rw [← ht], hq'.symm⟩

/-- C2 witness: fetching from the one-task queue `[tA]` with
`BIG_STRIDE = 100` returns `tA1 = tA` with pass `0 + 100 / 1 = 100`. -/
theorem fetch_pass_increment_witness :
    fetch 100 [tA] = some (some tA1, ([] : List TCB)) ∧
    ((∃ pos, pos < [tA].length ∧
        tA1.priority = ([tA].getD pos default).priority ∧
        tA1.pass = ([tA].getD pos default).pass +
          100 / ([tA].getD pos default).priority ∧
        ([] : List TCB) = [tA].eraseIdx pos) ∧
     (∀ (r : List TCB) (u : TCB), add r u = r ++ [u]) ∧
     (∀ (now : Nat) (u : TCB), (dispatch now u).pass = u.pass) ∧
     (∀ (b i : Nat) (u : TCB), (count_syscall b u i).pass = u.pass)) :=
  ⟨by decide, fetch_pass_increment 100 [tA] tA1 [] (by decide)⟩

/-- C8: under the spec precondition that every queued task has priority ≥ 1,
`fetch` is total: the division `BIG_STRIDE / priority` never divides by
zero, so the panic branch (modelled as `none`) is unreachable. -/
theorem fetch_total_of_positive_priority (bs : Nat) (q : List TCB)
    (hwf : ∀ t ∈ q, 1 ≤ t.priority) :
    (fetch bs q).isSome = true := by
  by_cases hq : q = []
  · subst hq
    rfl
  · have hp : (q.getD (minPassPos q) default).priority ≠ 0 := by
      have := hwf _ (minPassPos_mem q hq)
      omega
    rw [fetch_cons_eq bs q hq hp]
    rfl

/-- C8 witness: the queue `[tA, tB]` satisfies the precondition and `fetch`
succeeds on it. -/
theorem fetch_total_of_positive_priority_witness :
    (∀ t ∈ [tA, tB], 1 ≤ t.priority) ∧
    (fetch 100 [tA, tB]).isSome = true :=
  ⟨by decide, fetch_total_of_positive_priority 100 [tA, tB] (by decide)⟩

/-- C10: on a non-empty queue, `fetch` mutates only the task it returns: the
resulting queue is the original with the selected position removed, it is a
sublist of the original queue (so the remaining tasks keep their relative
insertion order), and every remaining task is an element of the original
queue, hence keeps its pass, priority, status and all other fields. -/
theorem fetch_frame_remaining (bs : Nat) (q : List TCB)
    (hwf : ∀ t ∈ q, 1 ≤ t.priority) (hne : q ≠ []) :
    ∃ pos t', pos < q.length ∧
      fetch bs q = some (some t', q.eraseIdx pos) ∧
      List.Sublist (q.eraseIdx pos) q ∧
      ∀ u ∈ q.eraseIdx pos, u ∈ q := by
  have hp : (q.getD (minPassPos q) default).priority ≠ 0 := by
    have := hwf _ (minPassPos_mem q hne)
    omega
  exact ⟨minPassPos q, _, (minPassPos_spec q hne).1, fetch_cons_eq bs q hne hp,
    List.eraseIdx_sublist q (minPassPos q),
    fun u hu => (List.eraseIdx_sublist q (minPassPos q)).subset hu⟩

/-- C10 witness: on `[tA, tB]`, `fetch` removes one position and the rest of
the queue is an unchanged sublist. -/
theorem fetch_frame_remaining_witness :
    (∀ t ∈ [tA, tB], 1 ≤ t.priority) ∧
    ∃ pos t', pos < [tA, tB].length ∧
      fetch 100 [tA, tB] = some (some t', [tA, tB].eraseIdx pos) ∧
      List.Sublist ([tA, tB].eraseIdx pos) [tA, tB] ∧
      ∀ u ∈ [tA, tB].eraseIdx pos, u ∈ [tA, tB] :=
  ⟨by decide, fetch_frame_remaining 100 [tA, tB] (by decide) (by decide)⟩

/-- C5: `start_time` is assigned exactly once, at a task's first dispatch by
the `run_tasks` loop: a first dispatch of a task with unset `start_time` sets
it to the current time, any further sequence of dispatches leaves it at that
value, any dispatch of a task with set `start_time` preserves it, and
`current_run_time` returns exactly `now − start_time` for the current
task. -/
theorem start_time_once (t : TCB) (n0 : Nat) (ns : List Nat)
    (h0 : t.start_time = none) :
    (dispatch n0 t).start_time = some n0 ∧
    (ns.foldl (fun u n => dispatch n u) (dispatch n0 t)).start_time = some n0 ∧
    (∀ (u : TCB) (m s : Nat), u.start_time = some s →
      (dispatch m u).start_time = some s) ∧
    (∀ (u : TCB) (now s : Nat), u.start_time = some s → s ≤ now →
      current_run_time now u = some (now - s)) := by
  have hset : ∀ (u : TCB) (m s : Nat), u.start_time = some s →
      (dispatch m u).start_time = some s := by
    intro u m s hu
    simp [dispatch, hu]
  have hfirst : (dispatch n0 t).start_time = some n0 := by
    simp [dispatch, h0]
  refine ⟨hfirst, ?_, hset, ?_⟩
  · have hkeep : ∀ (l : List Nat) (u : TCB), u.start_time = some n0 →
        (l.foldl (fun v n => dispatch n v) u).start_time = some n0 := by
      intro l
      induction l with
      | nil =>
        intro u hu
        simpa using hu
      | cons a l ih =>
        intro u hu
        simpa using ih _ (hset u a n0 hu)
    exact hkeep ns _ hfirst
  · intro u now s hu _
    simp [current_run_time, hu]

/-- C5 witness: dispatching `tA` (unset `start_time`) at time 3 sets
`start_time` to 3, two later dispatches keep it, and `current_run_time` is
`now − start_time`. -/
theorem start_time_once_witness :
    tA.start_time = none ∧
    ((dispatch 3 tA).start_time = some 3 ∧
     (([5, 7] : List Nat).foldl (fun u n => dispatch n u)
        (dispatch 3 tA)).start_time = some 3 ∧
     (∀ (u : TCB) (m s : Nat), u.start_time = some s →
       (dispatch m u).start_time = some s) ∧
     (∀ (u : TCB) (now s : Nat), u.start_time = some s → s ≤ now →
       current_run_time now u = some (now - s))) :=
  ⟨rfl, start_time_once tA 3 [5, 7] rfl⟩

/-- C7: `count_syscall` with an id at or beyond the counter-table bound (the
counter table has exactly `bound = MAX_SYSCALL_NUM` entries) leaves the task
completely unchanged; with an id strictly below the bound it increments
exactly the counter at index `id` by one, changes no other counter, and
changes no other field of the task. -/
theorem count_syscall_exact (bound : Nat) (t : TCB) (id : Nat)
    (hlen : t.syscall_times.length = bound) :
    (bound ≤ id → count_syscall bound t id = t) ∧
    (id < bound →
      ((count_syscall bound t id).syscall_times.getD id 0 =
         t.syscall_times.getD id 0 + 1 ∧
       (∀ j, j ≠ id →
         (count_syscall bound t id).syscall_times.getD j 0 =
           t.syscall_times.getD j 0) ∧
       (count_syscall bound t id).pass = t.pass ∧
       (count_syscall bound t id).priority = t.priority ∧
       (count_syscall bound t id).task_status = t.task_status ∧
       (count_syscall bound t id).start_time = t.start_time)) := by
  constructor
  · intro h
    unfold count_syscall
    rw [if_neg (by omega)]
  · intro h
    have hid : id < t.syscall_times.length := by omega
    unfold count_syscall
    rw [if_pos h]
    refine ⟨?_, ?_, rfl, rfl, rfl, rfl⟩
    · simp [List.getD, List.getElem?_set_self, hid]
    · intro j hj
      simp [List.getD, List.getElem?_set_ne (Ne.symm hj)]

/-- C7 witness: with a two-entry counter table, id 1 bumps only counter 1,
and (from a second application of the theorem) id 2 is a no-op. -/
theorem count_syscall_exact_witness :
    tA.syscall_times.length = 2 ∧
    ((2 ≤ 1 → count_syscall 2 tA 1 = tA) ∧
     (1 < 2 →
       ((count_syscall 2 tA 1).syscall_times.getD 1 0 =
          tA.syscall_times.getD 1 0 + 1 ∧
        (∀ j, j ≠ 1 →
          (count_syscall 2 tA 1).syscall_times.getD j 0 =
            tA.syscall_times.getD j 0) ∧
        (count_syscall 2 tA 1).pass = tA.pass ∧
        (count_syscall 2 tA 1).priority = tA.priority ∧
        (count_syscall 2 tA 1).task_status = tA.task_status ∧
        (count_syscall 2 tA 1).start_time = tA.start_time))) :=
  ⟨rfl, count_syscall_exact 2 tA 1 rfl⟩

/-- The page scan hits some page iff `f` holds of a page in `[s, s+n)`. -/
theorem anyPage_eq_true_iff (f : Nat → Bool) (s n : Nat) :
    anyPage f s n = true ↔ ∃ k, k < n ∧ f (s + k) = true := by
  induction n generalizing s with
  | zero => simp [anyPage]
  | succ n ih =>
    rw [anyPage, Bool.or_eq_true, ih]
    constructor
    · rintro (hf | ⟨k, hk, hfk⟩)
      · exact ⟨0, by omega, by simpa using hf⟩
      · refine ⟨k + 1, by omega, ?_⟩
        rw [show s + (k + 1) = s + 1 + k by omega]
        exact hfk
    · rintro ⟨k, hk, hfk⟩
      cases k with
      | zero => exact Or.inl (by simpa using hfk)
      | succ k =>
        refine Or.inr ⟨k, by omega, ?_⟩
        rw [show s + 1 + k = s + (k + 1) by omega]
        exact hfk

/-- The `task_mmap` validation loop fires iff some page of `[s, e)` is
already validly mapped. -/
theorem scanMapped_iff (ms : MemorySet) (s e : Nat) :
    scanMapped ms s e = true ↔
      ∃ vpn, s ≤ vpn ∧ vpn < e ∧ pageValid ms vpn = true := by
  unfold scanMapped
  rw [anyPage_eq_true_iff]
  constructor
  · rintro ⟨k, hk, hf⟩
    exact ⟨s + k, by omega, by omega, hf⟩
  · rintro ⟨vpn, h1, h2, hf⟩
    refine ⟨vpn - s, by omega, ?_⟩
    rw [show s + (vpn - s) = vpn by omega]
    exact hf

/-- The `task_munmap` validation loop fires iff some page of `[s, e)` is not
validly mapped. -/
theorem scanUnmapped_iff (ms : MemorySet) (s e : Nat) :
    scanUnmapped ms s e = true ↔
      ∃ vpn, s ≤ vpn ∧ vpn < e ∧ pageValid ms vpn = false := by
  unfold scanUnmapped
  rw [anyPage_eq_true_iff]
  constructor
  · rintro ⟨k, hk, hf⟩
    exact ⟨s + k, by omega, by omega, by simpa using hf⟩
  · rintro ⟨vpn, h1, h2, hf⟩
    refine ⟨vpn - s, by omega, ?_⟩
    rw [show s + (vpn - s) = vpn by omega]
    simpa using hf

/-- C3: `task_mmap(start, len, port)` returns `-1` with the current task's
address space completely unchanged whenever `start` is not page-aligned, or
`port` has a bit set above bit 2, or the low three bits of `port` are all
zero, or some page of the target range is already validly mapped; when none
of these holds the call returns `0`. -/
theorem task_mmap_failure_and_success (ms : MemorySet) (start len port : Nat) :
    ((start % PAGE_SIZE ≠ 0 ∨ port >>> 3 ≠ 0 ∨ port &&& 7 = 0 ∨
        ∃ vpn, vaFloor start ≤ vpn ∧ vpn < vaCeil (start + len) ∧
          pageValid ms vpn = true) →
      task_mmap ms start len port = (-1, ms)) ∧
    (¬ (start % PAGE_SIZE ≠ 0 ∨ port >>> 3 ≠ 0 ∨ port &&& 7 = 0 ∨
        ∃ vpn, vaFloor start ≤ vpn ∧ vpn < vaCeil (start + len) ∧
          pageValid ms vpn = true) →
      (task_mmap ms start len port).1 = 0) := by
  constructor
  · intro h
    unfold task_mmap
    by_cases h1 : start % PAGE_SIZE ≠ 0 ∨ port >>> 3 ≠ 0 ∨ port &&& 7 = 0
    · rw [if_pos h1]
    · rw [if_neg h1]
      have hscan : scanMapped ms (vaFloor start) (vaCeil (start + len)) =
          true := by
        rcases h with h | h | h | h
        · exact absurd (Or.inl h) h1
        · exact absurd (Or.inr (Or.inl h)) h1
        · exact absurd (Or.inr (Or.inr h)) h1
        · exact (scanMapped_iff ms _ _).mpr h
      rw [hscan]
      rfl
  · intro h
    push_neg at h
    obtain ⟨h1, h2, h3, h4⟩ := h
    unfold task_mmap
    rw [if_neg (by push_neg; exact ⟨h1, h2, h3⟩)]
    have hscan : scanMapped ms (vaFloor start) (vaCeil (start + len)) =
        false := by
      rw [Bool.eq_false_iff]
      intro hs
      obtain ⟨vpn, ha, hb, hc⟩ := (scanMapped_iff ms _ _).mp hs
      exact absurd hc (h4 vpn ha hb)
    rw [hscan]
    rfl

/-- C3 witness: a misaligned `start` fails and leaves the (empty) address
space unchanged. -/
theorem task_mmap_failure_and_success_witness :
    ((5 : Nat) % PAGE_SIZE ≠ 0 ∨ (1 : Nat) >>> 3 ≠ 0 ∨ (1 : Nat) &&& 7 = 0 ∨
       ∃ vpn, vaFloor 5 ≤ vpn ∧ vpn < vaCeil (5 + 0) ∧
         pageValid msEmpty vpn = true) ∧
    task_mmap msEmpty 5 0 1 = (-1, msEmpty) :=
  ⟨Or.inl (by decide),
   (task_mmap_failure_and_success msEmpty 5 0 1).1 (Or.inl (by decide))⟩

/-- C4: `task_munmap(start, len)` returns `-1` with the address space
completely unchanged (in particular no page is unmapped) whenever `start` is
not page-aligned or some page of the target range is not validly mapped;
otherwise it returns `0` and every page of the range becomes unmapped. -/
theorem task_munmap_failure_and_success (ms : MemorySet) (start len : Nat) :
    ((start % PAGE_SIZE ≠ 0 ∨
        ∃ vpn, vaFloor start ≤ vpn ∧ vpn < vaCeil (start + len) ∧
          pageValid ms vpn = false) →
      task_munmap ms start len = (-1, ms)) ∧
    (¬ (start % PAGE_SIZE ≠ 0 ∨
        ∃ vpn, vaFloor start ≤ vpn ∧ vpn < vaCeil (start + len) ∧
          pageValid ms vpn = false) →
      (task_munmap ms start len).1 = 0 ∧
      ∀ vpn, vaFloor start ≤ vpn → vpn < vaCeil (start + len) →
        (task_munmap ms start len).2 vpn = none) := by
  constructor
  · intro h
    unfold task_munmap
    by_cases h1 : start % PAGE_SIZE ≠ 0
    · rw [if_pos h1]
    · rw [if_neg h1]
      have hscan : scanUnmapped ms (vaFloor start) (vaCeil (start + len)) =
          true := by
        rcases h with h | h
        · exact absurd h h1
        · exact (scanUnmapped_iff ms _ _).mpr h
      rw [hscan]
      rfl
  · intro h
    push_neg at h
    obtain ⟨h1, h2⟩ := h
    unfold task_munmap
    rw [if_neg (by push_neg; exact h1)]
    have hscan : scanUnmapped ms (vaFloor start) (vaCeil (start + len)) =
        false := by
      rw [Bool.eq_false_iff]
      intro hs
      obtain ⟨vpn, ha, hb, hc⟩ := (scanUnmapped_iff ms _ _).mp hs
      exact absurd hc (h2 vpn ha hb)
    rw [hscan]
    refine ⟨rfl, ?_⟩
    intro vpn hv1 hv2
    show msUnmap ms (vaFloor start) (vaCeil (start + len)) vpn = none
    unfold msUnmap
    rw [if_pos ⟨hv1, hv2⟩]

/-- C4 witness: unmapping one page of the empty address space fails (the page
is not validly mapped) and leaves the address space unchanged. -/
theorem task_munmap_failure_and_success_witness :
    ((4096 : Nat) % PAGE_SIZE ≠ 0 ∨
       ∃ vpn, vaFloor 4096 ≤ vpn ∧ vpn < vaCeil (4096 + 1) ∧
         pageValid msEmpty vpn = false) ∧
    task_munmap msEmpty 4096 1 = (-1, msEmpty) :=
  ⟨Or.inr ⟨1, by decide, by decide, rfl⟩,
   (task_munmap_failure_and_success msEmpty 4096 1).1
     (Or.inr ⟨1, by decide, by decide, rfl⟩)⟩

/-- C6: on every successful `task_mmap` call, every page of the target range
is mapped valid with permission bits `(port <<< 1) ||| U`: the
read/write/execute bits (bits 1–3 of the entry) are exactly the low three
bits of `port`, and the user-accessibility bit (bit 4) is always set,
regardless of `port`'s value. -/
theorem task_mmap_perm_user (ms : MemorySet) (start len port : Nat)
    (h : (task_mmap ms start len port).1 = 0) :
    ∀ vpn, vaFloor start ≤ vpn → vpn < vaCeil (start + len) →
      ∃ pte, (task_mmap ms start len port).2 vpn = some pte ∧
        pte.valid = true ∧
        pte.perm = (port <<< 1) ||| U_BIT ∧
        pte.perm.testBit 4 = true ∧
        pte.perm.testBit 1 = port.testBit 0 ∧
        pte.perm.testBit 2 = port.testBit 1 ∧
        pte.perm.testBit 3 = port.testBit 2 := by
  intro vpn hv1 hv2
  unfold task_mmap at h ⊢
  by_cases h1 : start % PAGE_SIZE ≠ 0 ∨ port >>> 3 ≠ 0 ∨ port &&& 7 = 0
  · rw [if_pos h1] at h
    simp at h
  · rw [if_neg h1] at h ⊢
    by_cases h2 : scanMapped ms (vaFloor start) (vaCeil (start + len)) = true
    · rw [h2] at h
      simp at h
    · rw [Bool.not_eq_true] at h2
      rw [h2]
      simp only [Bool.false_eq_true, if_false]
      refine ⟨⟨true, (port <<< 1) ||| U_BIT⟩, ?_, rfl, rfl, ?_, ?_, ?_, ?_⟩
      · unfold insert_framed_area
        rw [if_pos ⟨hv1, hv2⟩]
      · have h16 : Nat.testBit U_BIT 4 = true := by decide
        rw [Nat.testBit_or, h16, Bool.or_true]
      · have h16 : Nat.testBit U_BIT 1 = false := by decide
        rw [Nat.testBit_or, h16, Bool.or_false, Nat.testBit_shiftLeft]
        rfl
      · have h16 : Nat.testBit U_BIT 2 = false := by decide
        rw [Nat.testBit_or, h16, Bool.or_false, Nat.testBit_shiftLeft]
        rfl
      · have h16 : Nat.testBit U_BIT 3 = false := by decide
        rw [Nat.testBit_or, h16, Bool.or_false, Nat.testBit_shiftLeft]
        rfl

/-- C6 witness: mapping one page with `port = 3` (read and write) installs a
valid entry with bits R, W and U set and X clear. -/
theorem task_mmap_perm_user_witness :
    (task_mmap msEmpty 4096 1 3).1 = 0 ∧
    ∀ vpn, vaFloor 4096 ≤ vpn → vpn < vaCeil (4096 + 1) →
      ∃ pte, (task_mmap msEmpty 4096 1 3).2 vpn = some pte ∧
        pte.valid = true ∧
        pte.perm = ((3 : Nat) <<< 1) ||| U_BIT ∧
        pte.perm.testBit 4 = true ∧
        pte.perm.testBit 1 = (3 : Nat).testBit 0 ∧
        pte.perm.testBit 2 = (3 : Nat).testBit 1 ∧
        pte.perm.testBit 3 = (3 : Nat).testBit 2 :=
  ⟨by decide, task_mmap_perm_user msEmpty 4096 1 3 (by decide)⟩

/-- C9: with a page-aligned `start`, a valid `port` and `len = 0`, the target
page range `[floor start, ceil start)` is empty, so `task_mmap` returns `0`
and maps no page, and `task_munmap` returns `0` and unmaps no page: both
leave the address space unchanged. -/
theorem mmap_munmap_len_zero (ms : MemorySet) (start port : Nat)
    (ha : start % PAGE_SIZE = 0) (hp1 : port &&& 7 ≠ 0) (hp2 : port >>> 3 = 0) :
    vaCeil (start + 0) = vaFloor start ∧
    task_mmap ms start 0 port = (0, ms) ∧
    task_munmap ms start 0 = (0, ms) := by
  have ha' : start % 4096 = 0 := ha
  have hce : vaCeil (start + 0) = vaFloor start := by
    unfold vaCeil vaFloor PAGE_SIZE
    omega
  have hscanM : scanMapped ms (vaFloor start) (vaCeil (start + 0)) = false := by
    unfold scanMapped
    rw [hce, Nat.sub_self]
    rfl
  have hscanU : scanUnmapped ms (vaFloor start) (vaCeil (start + 0)) =
      false := by
    unfold scanUnmapped
    rw [hce, Nat.sub_self]
    rfl
  have h1 : ¬ (start % PAGE_SIZE ≠ 0 ∨ port >>> 3 ≠ 0 ∨ port &&& 7 = 0) := by
    push_neg
    exact ⟨ha, hp2, hp1⟩
  refine ⟨hce, ?_, ?_⟩
  · unfold task_mmap
    rw [if_neg h1, hscanM]
    simp only [Bool.false_eq_true, if_false]
    have hins : insert_framed_area ms start (start + 0)
        ((port <<< 1) ||| U_BIT) = ms := by
      funext vpn
      unfold insert_framed_area
      rw [if_neg (by rw [hce]; omega)]
    rw [hins]
  · unfold task_munmap
    rw [if_neg (by push_neg; exact ha), hscanU]
    simp only [Bool.false_eq_true, if_false]
    have huns : msUnmap ms (vaFloor start) (vaCeil (start + 0)) = ms := by
      funext vpn
      unfold msUnmap
      rw [if_neg (by rw [hce]; omega)]
    rw [huns]

/-- C9 witness: `start = 8192`, `port = 7`, `len = 0`: both calls succeed and
leave the empty address space unchanged. -/
theorem mmap_munmap_len_zero_witness :
    ((8192 : Nat) % PAGE_SIZE = 0 ∧ (7 : Nat) &&& 7 ≠ 0 ∧
       (7 : Nat) >>> 3 = 0) ∧
    (vaCeil (8192 + 0) = vaFloor 8192 ∧
     task_mmap msEmpty 8192 0 7 = (0, msEmpty) ∧
     task_munmap msEmpty 8192 0 = (0, msEmpty)) :=
  ⟨⟨by decide, by decide, by decide⟩,
   mmap_munmap_len_zero msEmpty 8192 7 (by decide) (by decide) (by decide)⟩

end OS5
